import Mathlib

/-!
# Verification of mina-rs account encoders

Shallow embedding of `src/base/src/account/timing.rs` and
`src/base/src/account/token_symbol.rs`: the chunked random-oracle-input
encoders for account timing data and token symbols, and the GraphQL JSON
parsers for timing data.

Machine integers (`u64`, `u32`) are modelled as `Nat`; the `as u32` cast
at the call sites in `TimedData::to_chunked_roinput` is `% 2^32`.
`anyhow::Result` is modelled as `Option` (success / failure; the error
payload is never inspected by this code).
-/

namespace MinaRs

/-- One atom appended to a `ChunkedROInput` accumulator: either a full
field-element chunk, or a value packed with an explicit bit width. -/
inductive Atom where
  | chunk (v : Nat) : Atom
  | packed (v : Nat) (width : Nat) : Atom
deriving DecidableEq, Repr

/-- The shape of an atom: which constructor it is, and the width when packed.
Used to state that two atom sequences have identical shape. -/
def Atom.shape : Atom → Option Nat
  | .chunk _ => none
  | .packed _ w => some w

/-- The `ChunkedROInput` accumulator, modelled as the ordered list of atoms
appended to it. -/
abbrev ChunkedROInput := List Atom

/-- `ChunkedROInput::new()`. -/
def ChunkedROInput.new : ChunkedROInput := []

/-- `ChunkedROInput::append_packed(f, width)`: append one packed atom. -/
def ChunkedROInput.append_packed (r : ChunkedROInput) (v width : Nat) : ChunkedROInput :=
  r ++ [Atom.packed v width]

/-- `ChunkedROInput::append_u32(x)`: append the 32-bit value as a packed
atom of width 32 (the argument is already a `u32`, i.e. `< 2^32`). -/
def ChunkedROInput.append_u32 (r : ChunkedROInput) (v : Nat) : ChunkedROInput :=
  r.append_packed v 32

/-- `ChunkedROInput::append_chunked(&x)`: append all atoms of another
chunked input, in order. -/
def ChunkedROInput.append_chunked (r : ChunkedROInput) (other : ChunkedROInput) :
    ChunkedROInput :=
  r ++ other

/-- `x as u32` on a `u64`-or-wider value: truncation modulo `2^32`. -/
def toU32 (x : Nat) : Nat := x % 2 ^ 32

/-- Modelled from the spec: `Amount` (from `crate::numbers`, not under
`src/`) is an unsigned scalar amount; per spec §4.2 its chunked encoding is
a single full-scalar chunk atom. -/
def Amount.to_chunked_roinput (v : Nat) : ChunkedROInput :=
  ChunkedROInput.new ++ [Atom.chunk v]

/-- `TimedData` (spec: `VestingSchedule`): five unsigned scalar fields.
`Amount` and `BlockTime` wrap unsigned machine integers, modelled as `Nat`. -/
structure TimedData where
  initial_minimum_balance : Nat
  cliff_time : Nat
  cliff_amount : Nat
  vesting_period : Nat
  vesting_increment : Nat
deriving DecidableEq, Repr

/-- `impl Default for TimedData`: all fields 0 except `vesting_period = 1`. -/
def TimedData.default : TimedData :=
  { initial_minimum_balance := 0
    cliff_time := 0
    cliff_amount := 0
    vesting_period := 1
    vesting_increment := 0 }

/-- `TimedData::to_chunked_roinput`: chunk, packed-u32, chunk, packed-u32,
chunk, mirroring the builder chain in the source. -/
def TimedData.to_chunked_roinput (t : TimedData) : ChunkedROInput :=
  ((((ChunkedROInput.new.append_chunked
      (Amount.to_chunked_roinput t.initial_minimum_balance)).append_u32
      (toU32 t.cliff_time)).append_chunked
      (Amount.to_chunked_roinput t.cliff_amount)).append_u32
      (toU32 t.vesting_period)).append_chunked
      (Amount.to_chunked_roinput t.vesting_increment)

/-- `Timing`: `Untimed` or `Timed(TimedData)`. -/
inductive Timing where
  | Untimed : Timing
  | Timed (t : TimedData) : Timing
deriving DecidableEq, Repr

/-- `Timing::to_chunked_roinput`: a width-1 packed tag (`Fp::zero()` /
`Fp::one()`, i.e. 0 / 1) followed by the chunked encoding of the default
`TimedData` (for `Untimed`) or the contained one (for `Timed`). -/
def Timing.to_chunked_roinput : Timing → ChunkedROInput
  | .Untimed =>
      (ChunkedROInput.new.append_packed 0 1).append_chunked
        TimedData.default.to_chunked_roinput
  | .Timed timed =>
      (ChunkedROInput.new.append_packed 1 1).append_chunked
        timed.to_chunked_roinput

/-- The modulus of `mina_hasher::Fp`, the Pallas base field:
`0x40000000000000000000000000000000224698fc094cf91b992d30ed00000001`. -/
def fpModulus : Nat :=
  28948022309329048855892746252171976963363056481941560715954676764349967630337

/-- Little-endian interpretation of a byte list as a natural number. -/
def leNat : List Nat → Nat
  | [] => 0
  | b :: rest => b + 256 * leNat rest

/-- `Fp::read` (ark-ff `FromBytes`): read the bytes as a little-endian
integer; fail when the value is not below the field modulus. -/
def fpRead (bytes : List Nat) : Option Nat :=
  let v := leNat bytes
  if v < fpModulus then some v else none

/-- `TokenSymbol`: a fixed 32-byte buffer. `data` is the byte list; the
structure carries the `[u8; 32]` typing facts (length 32, each byte < 256). -/
structure TokenSymbol where
  data : List Nat
  len_eq : data.length = 32
  bytes_lt : ∀ b ∈ data, b < 256

/-- `TokenSymbol::max_length()`. -/
def TokenSymbol.max_length : Nat := 6

/-- `TokenSymbol::num_bits() = 8 * max_length()`. -/
def TokenSymbol.num_bits : Nat := 8 * TokenSymbol.max_length

/-- `TokenSymbol::to_chunked_roinput`: zero a fresh 32-byte buffer, copy in
the first `max_length` bytes, read it as an `Fp`, and append one packed atom
of width `num_bits`. The source unwraps the read; the model keeps the
`Option` so that the unwrap's safety is a provable statement. -/
def TokenSymbol.to_chunked_roinput (s : TokenSymbol) : Option ChunkedROInput :=
  let bytes := s.data.take TokenSymbol.max_length ++
    List.replicate (32 - TokenSymbol.max_length) 0
  match fpRead bytes with
  | some f => some (ChunkedROInput.new.append_packed f TokenSymbol.num_bits)
  | none => none

/-! ## GraphQL JSON parsing

`serde_json::Value` and the `FromGraphQLJson` implementations. -/

/-- `serde_json::Value`. -/
inductive Json where
  | null : Json
  | bool (b : Bool) : Json
  | num (n : Int) : Json
  | str (s : String) : Json
  | arr (xs : List Json) : Json
  | obj (kvs : List (String × Json)) : Json

/-- `json["key"]` (`Index<&str>` for `Value`): the value at the key of an
object, `Null` for a missing key or a non-object. -/
def Json.index (j : Json) (key : String) : Json :=
  match j with
  | .obj kvs =>
    match kvs.find? (fun kv => kv.1 == key) with
    | some kv => kv.2
    | none => .null
  | _ => .null

/-- `Value::as_str`: `Some` exactly on JSON strings. -/
def Json.as_str : Json → Option String
  | .str s => some s
  | _ => none

/-- Rust `str::parse::<u64>`: an optional leading `+`, then one or more
ASCII digits, with the value fitting in a `u64`; anything else fails. -/
def parseU64 (s : String) : Option Nat :=
  let ds := match s.data with
    | '+' :: rest => rest
    | cs => cs
  if ds.isEmpty then none
  else if ds.all Char.isDigit then
    let v := ds.foldl (fun acc c => acc * 10 + (c.toNat - 48)) 0
    if v < 2 ^ 64 then some v else none
  else none

/-- The parse of one field of the document:
`json[key].as_str().unwrap_or_default().parse::<u64>()`. -/
def fieldParse (j : Json) (key : String) : Option Nat :=
  parseU64 (((j.index key).as_str).getD "")

/-- `TimedData::from_graphql_json`: parse all five fields, in struct-literal
order, failing (`?`) on the first field whose string is absent or does not
parse. -/
def TimedData.from_graphql_json (j : Json) : Option TimedData := do
  let imb ← fieldParse j "initialMinimumBalance"
  let ct ← fieldParse j "cliffTime"
  let ca ← fieldParse j "cliffAmount"
  let vp ← fieldParse j "vestingPeriod"
  let vi ← fieldParse j "vestingIncrement"
  pure { initial_minimum_balance := imb
         cliff_time := ct
         cliff_amount := ca
         vesting_period := vp
         vesting_increment := vi }

/-- `Timing::from_graphql_json`: wrap a successful `TimedData` parse in
`Timed`; absorb any failure into `Untimed`. Always returns `Ok`. -/
def Timing.from_graphql_json (j : Json) : Option Timing :=
  some (match TimedData.from_graphql_json j with
    | some data => Timing.Timed data
    | none => Timing.Untimed)

/-! ## Sample documents and token symbols used by witnesses -/

/-- The document of spec §8: all five keys present with valid values. -/
def sampleTimedDoc : Json := Json.obj
  [("initialMinimumBalance", Json.str "5"), ("cliffTime", Json.str "10"),
   ("cliffAmount", Json.str "2"), ("vestingPeriod", Json.str "3"),
   ("vestingIncrement", Json.str "1")]

/-- The document of spec §8 with the `vestingPeriod` key removed. -/
def sampleMissingVpDoc : Json := Json.obj
  [("initialMinimumBalance", Json.str "5"), ("cliffTime", Json.str "10"),
   ("cliffAmount", Json.str "2"), ("vestingIncrement", Json.str "1")]

/-- A token symbol whose first 6 bytes are 65 and whose tail is zero. -/
def symA : TokenSymbol :=
  ⟨List.replicate 6 65 ++ List.replicate 26 0, by decide, by decide⟩

/-- A token symbol with the same first 6 bytes as `symA` but a nonzero tail. -/
def symB : TokenSymbol :=
  ⟨List.replicate 6 65 ++ List.replicate 26 255, by decide, by decide⟩

/-! ## Helper lemmas -/

/-- The five atoms of the `TimedData` encoding, written out. -/
lemma timedData_encode_eq (t : TimedData) :
    t.to_chunked_roinput =
      [Atom.chunk t.initial_minimum_balance,
       Atom.packed (t.cliff_time % 2 ^ 32) 32,
       Atom.chunk t.cliff_amount,
       Atom.packed (t.vesting_period % 2 ^ 32) 32,
       Atom.chunk t.vesting_increment] := rfl

/-- The `Timing` encoding, written out per variant. -/
lemma timing_encode_eq (s : TimedData) :
    Timing.to_chunked_roinput Timing.Untimed =
      Atom.packed 0 1 :: TimedData.default.to_chunked_roinput
    ∧ Timing.to_chunked_roinput (Timing.Timed s) =
      Atom.packed 1 1 :: s.to_chunked_roinput :=
  ⟨rfl, rfl⟩

/-- `TimedData::from_graphql_json`, rewritten as a simultaneous match on the
five field parses. -/
lemma timedData_from_graphql_eq (j : Json) :
    TimedData.from_graphql_json j =
      match fieldParse j "initialMinimumBalance", fieldParse j "cliffTime",
        fieldParse j "cliffAmount", fieldParse j "vestingPeriod",
        fieldParse j "vestingIncrement" with
      | some a, some t, some c, some p, some i => some ⟨a, t, c, p, i⟩
      | _, _, _, _, _ => none := by
  cases h1 : fieldParse j "initialMinimumBalance" <;>
    cases h2 : fieldParse j "cliffTime" <;>
      cases h3 : fieldParse j "cliffAmount" <;>
        cases h4 : fieldParse j "vestingPeriod" <;>
          cases h5 : fieldParse j "vestingIncrement" <;>
            simp [TimedData.from_graphql_json, h1, h2, h3, h4, h5]

/-- A little-endian byte list with all entries below 256 reads below
`256 ^ length`. -/
lemma leNat_lt_pow (l : List Nat) (h : ∀ b ∈ l, b < 256) :
    leNat l < 256 ^ l.length := by
  induction l with
  | nil => simp [leNat]
  | cons b rest ih =>
    have hb : b < 256 := h b (List.mem_cons_self b rest)
    have hr : leNat rest < 256 ^ rest.length :=
      ih fun x hx => h x (List.mem_cons_of_mem b hx)
    calc leNat (b :: rest) = b + 256 * leNat rest := rfl
      _ < 256 + 256 * leNat rest := by omega
      _ = 256 * (leNat rest + 1) := by ring
      _ ≤ 256 * 256 ^ rest.length := by
          exact Nat.mul_le_mul_left 256 hr
      _ = 256 ^ (b :: rest).length := by
          rw [List.length_cons]
          ring

/-- Trailing zero bytes do not change the little-endian value. -/
lemma leNat_append_replicate_zero (l : List Nat) (n : Nat) :
    leNat (l ++ List.replicate n 0) = leNat l := by
  induction l with
  | nil =>
    simp only [List.nil_append]
    induction n with
    | zero => rfl
    | succ m ih => simpa [List.replicate_succ, leNat] using ih
  | cons b rest ih => simp [leNat, ih]

/-- The zero-padded 6-byte prefix of any token symbol reads strictly below
the field modulus. -/
lemma tokenSymbol_padded_lt (s : TokenSymbol) :
    leNat (s.data.take 6 ++ List.replicate 26 0) < fpModulus := by
  have hlt : leNat (s.data.take 6) < 256 ^ (s.data.take 6).length :=
    leNat_lt_pow _ fun b hb => s.bytes_lt b (List.mem_of_mem_take hb)
  have hlen : (s.data.take 6).length ≤ 6 := by
    simp
  have hpow : (256 : Nat) ^ (s.data.take 6).length ≤ 256 ^ 6 :=
    Nat.pow_le_pow_right (by norm_num) hlen
  have hmod : (256 : Nat) ^ 6 < fpModulus := by norm_num [fpModulus]
  rw [leNat_append_replicate_zero]
  omega

/-! ## Claims -/

/-- C1: `Timing::to_chunked_roinput` emits exactly 6 atoms: a leading
width-1 packed tag (0 for `Untimed`, 1 for `Timed`) followed by the five
atoms of the schedule encoding — over the default `TimedData` for `Untimed`
and the contained schedule for `Timed` — and both variants have the same
length and shape. -/
theorem timing_encoding_tag_and_shape (s : TimedData) :
    Timing.to_chunked_roinput Timing.Untimed =
      Atom.packed 0 1 :: TimedData.default.to_chunked_roinput
    ∧ Timing.to_chunked_roinput (Timing.Timed s) =
      Atom.packed 1 1 :: s.to_chunked_roinput
    ∧ (∀ tm : Timing, (Timing.to_chunked_roinput tm).length = 6)
    ∧ (Timing.to_chunked_roinput Timing.Untimed).map Atom.shape =
      (Timing.to_chunked_roinput (Timing.Timed s)).map Atom.shape := by
  refine ⟨rfl, rfl, ?_, ?_⟩
  · intro tm
    cases tm with
    | Untimed => rfl
    | Timed t => rw [(timing_encode_eq t).2, timedData_encode_eq]; rfl
  · rw [(timing_encode_eq s).1, (timing_encode_eq s).2,
      timedData_encode_eq, timedData_encode_eq]
    rfl

/-- C2: `TimedData::to_chunked_roinput` emits exactly 5 atoms in the fixed
order chunk(initial_minimum_balance), packed(cliff_time mod 2^32, 32),
chunk(cliff_amount), packed(vesting_period mod 2^32, 32),
chunk(vesting_increment). -/
theorem timedData_encoding_fixed_order (t : TimedData) :
    t.to_chunked_roinput =
      [Atom.chunk t.initial_minimum_balance,
       Atom.packed (t.cliff_time % 2 ^ 32) 32,
       Atom.chunk t.cliff_amount,
       Atom.packed (t.vesting_period % 2 ^ 32) 32,
       Atom.chunk t.vesting_increment] :=
  timedData_encode_eq t

/-- C3: the packed atoms for `cliff_time` and `vesting_period` carry the
stored value reduced mod 2^32, so two schedules whose `cliff_time` (or
`vesting_period`) differ by a nonzero multiple of 2^32, with all other
fields equal, are distinct values with identical atom sequences. -/
theorem truncation_aliasing (t : TimedData) (k m : Nat) (hk : 0 < k)
    (hm : 0 < m) :
    (t.to_chunked_roinput[1]? = some (Atom.packed (t.cliff_time % 2 ^ 32) 32)
     ∧ t.to_chunked_roinput[3]? =
        some (Atom.packed (t.vesting_period % 2 ^ 32) 32))
    ∧ ({ t with cliff_time := t.cliff_time + k * 2 ^ 32 } ≠ t
       ∧ TimedData.to_chunked_roinput
          { t with cliff_time := t.cliff_time + k * 2 ^ 32 } =
          t.to_chunked_roinput)
    ∧ ({ t with vesting_period := t.vesting_period + m * 2 ^ 32 } ≠ t
       ∧ TimedData.to_chunked_roinput
          { t with vesting_period := t.vesting_period + m * 2 ^ 32 } =
          t.to_chunked_roinput) := by
  refine ⟨⟨by rw [timedData_encode_eq]; rfl, by rw [timedData_encode_eq]; rfl⟩,
    ⟨?_, ?_⟩, ⟨?_, ?_⟩⟩
  · intro h
    have := congrArg TimedData.cliff_time h
    simp only at this
    omega
  · rw [timedData_encode_eq, timedData_encode_eq]
    simp [Nat.add_mul_mod_self_right]
  · intro h
    have := congrArg TimedData.vesting_period h
    simp only at this
    omega
  · rw [timedData_encode_eq, timedData_encode_eq]
    simp [Nat.add_mul_mod_self_right]

/-- Witness for C3 at `t = ⟨0, 5, 0, 1, 0⟩`, `k = m = 1`. -/
theorem truncation_aliasing_witness :
    (0 < 1
    ∧ TimedData.to_chunked_roinput ⟨0, 5 + 1 * 2 ^ 32, 0, 1, 0⟩ =
        TimedData.to_chunked_roinput ⟨0, 5, 0, 1, 0⟩)
    ∧ TimedData.to_chunked_roinput ⟨0, 5, 0, 1 + 1 * 2 ^ 32, 0⟩ =
        TimedData.to_chunked_roinput ⟨0, 5, 0, 1, 0⟩ :=
  ⟨⟨Nat.one_pos,
    (truncation_aliasing ⟨0, 5, 0, 1, 0⟩ 1 1 Nat.one_pos Nat.one_pos).2.1.2⟩,
   (truncation_aliasing ⟨0, 5, 0, 1, 0⟩ 1 1 Nat.one_pos Nat.one_pos).2.2.2⟩

/-- C4 counterexample: the `Timed` schedule with all fields zero reaches the
encoder and its fifth atom — the vesting-period atom — is packed value 0,
so it is false that every `Timing` value encodes a nonzero vesting-period
atom. -/
theorem vesting_period_zero_counterexample :
    (Timing.to_chunked_roinput (Timing.Timed ⟨0, 0, 0, 0, 0⟩))[4]? =
      some (Atom.packed 0 32) := rfl

/-- C4 amended: the canonical default `TimedData` sets `vesting_period` to
1, so the `Untimed` encoding's vesting-period atom is nonzero; for a `Timed`
schedule the vesting-period atom is nonzero whenever the stored
`vesting_period` is nonzero mod 2^32 — but the encoder itself does not
enforce this for arbitrary `Timed` values. -/
theorem vesting_period_nonzero_amended (t : TimedData)
    (h : t.vesting_period % 2 ^ 32 ≠ 0) :
    TimedData.default.vesting_period = 1
    ∧ (∀ v w, (Timing.to_chunked_roinput Timing.Untimed)[4]? =
        some (Atom.packed v w) → v ≠ 0)
    ∧ (∀ v w, (Timing.to_chunked_roinput (Timing.Timed t))[4]? =
        some (Atom.packed v w) → v ≠ 0) := by
  refine ⟨rfl, ?_, ?_⟩
  · intro v w hv
    simp only [Timing.to_chunked_roinput] at hv
    cases hv
    decide
  · intro v w hv
    rw [(timing_encode_eq t).2, timedData_encode_eq] at hv
    simp only [List.getElem?_cons_succ, List.getElem?_cons_zero] at hv
    cases hv
    exact h

/-- Witness for C4 amended at `t = ⟨0, 0, 0, 3, 0⟩`. -/
theorem vesting_period_nonzero_amended_witness :
    (3 : Nat) % 2 ^ 32 ≠ 0 ∧ TimedData.default.vesting_period = 1 :=
  ⟨by decide, (vesting_period_nonzero_amended ⟨0, 0, 0, 3, 0⟩ (by decide)).1⟩

/-- C5: `TokenSymbol::to_chunked_roinput` emits exactly one atom, packed
with width 48 = 8 × max_length, whose value is the little-endian reading of
the fresh 32-byte buffer made of the input's first 6 bytes followed by 26
zero bytes. -/
theorem tokenSymbol_encoding (s : TokenSymbol) :
    s.to_chunked_roinput =
      some [Atom.packed (leNat (s.data.take 6 ++ List.replicate 26 0)) 48] := by
  have h := tokenSymbol_padded_lt s
  simp only [TokenSymbol.to_chunked_roinput, TokenSymbol.max_length, fpRead]
  rw [if_pos h]
  rfl

/-- C6: two token symbols that agree on their first 6 bytes encode to the
same atom, whatever their bytes at index ≥ 6 are. -/
theorem tokenSymbol_trailing_irrelevant (s₁ s₂ : TokenSymbol)
    (h : s₁.data.take 6 = s₂.data.take 6) :
    s₁.to_chunked_roinput = s₂.to_chunked_roinput := by
  simp only [TokenSymbol.to_chunked_roinput, TokenSymbol.max_length, h]

/-- Witness for C6: `symA` and `symB` agree on their first 6 bytes, differ
in their data, and encode identically. -/
theorem tokenSymbol_trailing_irrelevant_witness :
    (symA.data.take 6 = symB.data.take 6 ∧ symA.data ≠ symB.data)
    ∧ symA.to_chunked_roinput = symB.to_chunked_roinput :=
  ⟨⟨by decide, by decide⟩, tokenSymbol_trailing_irrelevant symA symB (by decide)⟩

/-- C7: decoding a document into a `Timing` is all-or-nothing: when all
five fields parse, the result is `Timed` with every field taken from the
document; when any single field fails, the result is `Untimed`. -/
theorem timing_from_graphql_all_or_nothing :
    (∀ (j : Json) (a t c p i : Nat),
      fieldParse j "initialMinimumBalance" = some a →
      fieldParse j "cliffTime" = some t →
      fieldParse j "cliffAmount" = some c →
      fieldParse j "vestingPeriod" = some p →
      fieldParse j "vestingIncrement" = some i →
      Timing.from_graphql_json j = some (Timing.Timed ⟨a, t, c, p, i⟩))
    ∧ (∀ j : Json,
      (fieldParse j "initialMinimumBalance" = none
       ∨ fieldParse j "cliffTime" = none
       ∨ fieldParse j "cliffAmount" = none
       ∨ fieldParse j "vestingPeriod" = none
       ∨ fieldParse j "vestingIncrement" = none) →
      Timing.from_graphql_json j = some Timing.Untimed) := by
  constructor
  · intro j a t c p i h1 h2 h3 h4 h5
    simp [Timing.from_graphql_json, timedData_from_graphql_eq, h1, h2, h3, h4, h5]
  · intro j h
    have hnone : TimedData.from_graphql_json j = none := by
      rw [timedData_from_graphql_eq]
      rcases h with h | h | h | h | h <;> rw [h] <;>
        cases fieldParse j "initialMinimumBalance" <;>
          cases fieldParse j "cliffTime" <;>
            cases fieldParse j "cliffAmount" <;>
              cases fieldParse j "vestingPeriod" <;>
                cases fieldParse j "vestingIncrement" <;> rfl
    simp [Timing.from_graphql_json, hnone]

/-- Witness for C7: the spec's sample document parses to
`Timed({5,10,2,3,1})`, and the document missing `vestingPeriod` to
`Untimed`. -/
theorem timing_from_graphql_all_or_nothing_witness :
    Timing.from_graphql_json sampleTimedDoc =
      some (Timing.Timed ⟨5, 10, 2, 3, 1⟩)
    ∧ Timing.from_graphql_json sampleMissingVpDoc = some Timing.Untimed :=
  ⟨timing_from_graphql_all_or_nothing.1 sampleTimedDoc 5 10 2 3 1
      (by decide) (by decide) (by decide) (by decide) (by decide),
   timing_from_graphql_all_or_nothing.2 sampleMissingVpDoc
      (Or.inr (Or.inr (Or.inr (Or.inl (by decide)))))⟩

/-- C8: `TimedData::from_graphql_json` fails exactly when some field's
string is missing or does not parse as an unsigned integer, and on success
every field of the result equals the parsed value of its document key. -/
theorem timedData_from_graphql_spec (j : Json) :
    (TimedData.from_graphql_json j = none ↔
      (fieldParse j "initialMinimumBalance" = none
       ∨ fieldParse j "cliffTime" = none
       ∨ fieldParse j "cliffAmount" = none
       ∨ fieldParse j "vestingPeriod" = none
       ∨ fieldParse j "vestingIncrement" = none))
    ∧ ∀ d : TimedData, TimedData.from_graphql_json j = some d →
        fieldParse j "initialMinimumBalance" = some d.initial_minimum_balance
        ∧ fieldParse j "cliffTime" = some d.cliff_time
        ∧ fieldParse j "cliffAmount" = some d.cliff_amount
        ∧ fieldParse j "vestingPeriod" = some d.vesting_period
        ∧ fieldParse j "vestingIncrement" = some d.vesting_increment := by
  rw [timedData_from_graphql_eq]
  cases h1 : fieldParse j "initialMinimumBalance" <;>
    cases h2 : fieldParse j "cliffTime" <;>
      cases h3 : fieldParse j "cliffAmount" <;>
        cases h4 : fieldParse j "vestingPeriod" <;>
          cases h5 : fieldParse j "vestingIncrement" <;>
            constructor <;> simp_all

/-- Witness for C8: the success branch at the sample document, recovering
the `cliffTime` field. -/
theorem timedData_from_graphql_spec_witness :
    TimedData.from_graphql_json sampleTimedDoc = some ⟨5, 10, 2, 3, 1⟩
    ∧ fieldParse sampleTimedDoc "cliffTime" = some 10 :=
  ⟨by decide,
   ((timedData_from_graphql_spec sampleTimedDoc).2 ⟨5, 10, 2, 3, 1⟩
      (by decide)).2.1⟩

/-- C9: the encoders are total. The token-symbol encoder's field read
always succeeds because the zero-padded 6-byte prefix reads strictly below
the field modulus, so the source's unwrap cannot panic; the timing encoders
are total functions producing their fixed-length sequences. -/
theorem encoders_total (s : TokenSymbol) :
    leNat (s.data.take 6 ++ List.replicate 26 0) < fpModulus
    ∧ (s.to_chunked_roinput).isSome = true
    ∧ (∀ t : TimedData, (TimedData.to_chunked_roinput t).length = 5)
    ∧ (∀ tm : Timing, (Timing.to_chunked_roinput tm).length = 6) := by
  refine ⟨tokenSymbol_padded_lt s, ?_, ?_, ?_⟩
  · simp only [TokenSymbol.to_chunked_roinput, TokenSymbol.max_length, fpRead]
    rw [if_pos (tokenSymbol_padded_lt s)]
    rfl
  · intro t
    rw [timedData_encode_eq]
    rfl
  · intro tm
    cases tm with
    | Untimed => rfl
    | Timed t => rw [(timing_encode_eq t).2, timedData_encode_eq]; rfl

/-- C10: `Timing::from_graphql_json` is infallible: on every JSON value it
returns `Ok`, every inner parse failure being absorbed into `Ok(Untimed)`. -/
theorem timing_from_graphql_infallible (j : Json) :
    (Timing.from_graphql_json j).isSome = true ∧
      Timing.from_graphql_json j ≠ none := by
  exact ⟨rfl, by simp [Timing.from_graphql_json]⟩

end MinaRs
